import Mathlib

/-!
Verification of the topological-lifting core
(`modules/transforms/liftings/lifting.py`).

The development embeds, as executable Lean definitions:
  * the feature-lifting registry `FEATURE_LIFTINGS` and construction of
    lifting instances (`AbstractLifting.__init__` and the per-domain
    variants with their default arguments);
  * `AbstractLifting.forward` (keyword-argument merging semantics of
    `Data(**initial_data, **lifted_topology)` included);
  * `GraphLifting._generate_graph_from_data` together with the
    torch_geometric utilities `is_undirected` / `to_undirected` it calls
    and the `networkx.Graph` node/edge-insertion semantics it relies on.

Python exceptions (KeyError, TypeError, IndexError, NotImplementedError)
are modelled with `Except String`.
-/

/-! ## Feature-lifting registry and instance construction -/

/-- The two strategy objects the registry can produce:
`SumLifting` and `IdentityTransform`. -/
inductive Strategy where
  | sumLifting
  | identityTransform
deriving DecidableEq

/-- The registry `FEATURE_LIFTINGS = {"SumLifting": SumLifting, None: IdentityTransform}`:
a lookup from an optional name to a strategy, `none` result meaning `KeyError`. -/
def FEATURE_LIFTINGS : Option String → Option Strategy
  | some s => if s = "SumLifting" then some Strategy.sumLifting else none
  | none => some Strategy.identityTransform

/-- State of a constructed `AbstractLifting` instance: the single resolved
strategy reference stored by `__init__`. -/
structure AbstractLiftingInst where
  feature_lifting : Strategy
deriving DecidableEq

/-- `AbstractLifting.__init__(feature_lifting)`: a single registry lookup,
raising `KeyError` on an unknown name, performed at construction time. -/
def AbstractLifting.mkInst (name : Option String) : Except String AbstractLiftingInst :=
  match FEATURE_LIFTINGS name with
  | some s => Except.ok ⟨s⟩
  | none => Except.error "KeyError"

/-- `AbstractLifting()` with the default argument `feature_lifting=None`. -/
def AbstractLifting.mkDefault : Except String AbstractLiftingInst :=
  AbstractLifting.mkInst none

/-- State of a constructed `GraphLifting` instance: resolved strategy,
`preserve_edge_attr`, and the `contains_edge_attr` attribute that
`_generate_graph_from_data` assigns (absent, i.e. `none`, until first set). -/
structure GraphLiftingInst where
  feature_lifting : Strategy
  preserve_edge_attr : Bool
  contains_edge_attr : Option Bool
deriving DecidableEq

/-- `GraphLifting.__init__(feature_lifting, preserve_edge_attr)`. -/
def GraphLifting.mkInst (name : Option String) (preserve : Bool) :
    Except String GraphLiftingInst :=
  match AbstractLifting.mkInst name with
  | Except.ok base => Except.ok ⟨base.feature_lifting, preserve, none⟩
  | Except.error e => Except.error e

/-- `GraphLifting()` with defaults `feature_lifting="SumLifting"`,
`preserve_edge_attr=False`. -/
def GraphLifting.mkDefault : Except String GraphLiftingInst :=
  GraphLifting.mkInst (some "SumLifting") false

/-- `PointCloudLifting()` with default `feature_lifting="SumLifting"`. -/
def PointCloudLifting.mkDefault : Except String AbstractLiftingInst :=
  AbstractLifting.mkInst (some "SumLifting")

/-- `CellComplexLifting()` with default `feature_lifting="SumLifting"`. -/
def CellComplexLifting.mkDefault : Except String AbstractLiftingInst :=
  AbstractLifting.mkInst (some "SumLifting")

/-- `SimplicialLifting()` with default `feature_lifting="SumLifting"`. -/
def SimplicialLifting.mkDefault : Except String AbstractLiftingInst :=
  AbstractLifting.mkInst (some "SumLifting")

/-- `HypergraphLifting()` with default `feature_lifting="SumLifting"`. -/
def HypergraphLifting.mkDefault : Except String AbstractLiftingInst :=
  AbstractLifting.mkInst (some "SumLifting")

/-- `CombinatorialLifting()` with default `feature_lifting="SumLifting"`. -/
def CombinatorialLifting.mkDefault : Except String AbstractLiftingInst :=
  AbstractLifting.mkInst (some "SumLifting")

/-! ## `AbstractLifting.forward`

A `torch_geometric.data.Data` record is modelled as its `to_dict()` items:
an insertion-ordered association list with unique keys.  The merging step
`Data(**initial_data, **lifted_topology)` uses Python keyword-argument
unpacking, which raises `TypeError` when the two dicts share a key. -/

/-- `data.to_dict()`: enumeration of the record's fields (already an
association list in this model). -/
def to_dict {α : Type} (d : List (String × α)) : List (String × α) := d

/-- Keyword-argument union `f(**a, **b)`: the unpacking of `b` raises
`TypeError` as soon as a key of `b` is already bound by `a`; otherwise the
resulting field set is `a` followed by `b`. -/
def mergeKwargs {α : Type} (a b : List (String × α)) : Except String (List (String × α)) :=
  if b.any (fun p => a.any (fun q => decide (q.1 = p.1))) then
    Except.error "TypeError: got multiple values for keyword argument"
  else
    Except.ok (a ++ b)

/-- `AbstractLifting.lift_topology`, unoverridden: `raise NotImplementedError`. -/
def AbstractLifting.lift_topology {α : Type} (_data : List (String × α)) :
    Except String (List (String × α)) :=
  Except.error "NotImplementedError"

/-- `AbstractLifting.forward(data)`: snapshot the fields, run the (abstract)
topology construction, run the feature-lifting strategy on the descriptor,
and build `Data(**initial_data, **lifted_topology)`. -/
def forward {α : Type}
    (lt : List (String × α) → Except String (List (String × α)))
    (fl : List (String × α) → Except String (List (String × α)))
    (data : List (String × α)) : Except String (List (String × α)) :=
  let initial_data := to_dict data
  match lt data with
  | Except.error e => Except.error e
  | Except.ok lifted_topology =>
    match fl lifted_topology with
    | Except.error e => Except.error e
    | Except.ok lifted_topology => mergeKwargs initial_data lifted_topology

/-- Lookup in an appended association list finds the left-hand binding first. -/
theorem lookup_append_left {α : Type} (a b : List (String × α)) (k : String) (v : α)
    (h : a.lookup k = some v) : (a ++ b).lookup k = some v := by
  induction a with
  | nil => simp [List.lookup] at h
  | cons p rest ih =>
    cases p with
    | mk pk pv =>
      simp only [List.cons_append, List.lookup] at h ⊢
      cases hk : (k == pk) with
      | true => simpa [hk] using h
      | false =>
        rw [hk] at h
        simpa [hk] using ih h

/-! ## Claim theorems about construction and `forward` -/

/-- A topology builder used for the collision scenario: it returns a
descriptor whose key `x` collides with the input record's field `x`. -/
def collideLift (_d : List (String × Nat)) : Except String (List (String × Nat)) :=
  Except.ok [("x", 2)]

/-- Input record for the collision scenario. -/
def collideData : List (String × Nat) := [("x", 1)]

/-- A topology builder for the disjoint-key scenario: a fresh key `t`. -/
def freshLift (_d : List (String × Nat)) : Except String (List (String × Nat)) :=
  Except.ok [("t", 5)]

/-- C2 counterexample: on a key collision between the input record and the
topology descriptor, `forward` does not return a record with the
descriptor's value — it raises `TypeError` (Python rejects duplicate
keyword arguments), so no output record is produced at all. -/
theorem forward_collision_raises :
    forward collideLift Except.ok collideData =
      Except.error "TypeError: got multiple values for keyword argument" := by
  rfl

/-- C2 (amended): when topology construction and feature lifting succeed,
`forward` returns the union of the input snapshot and the enriched
descriptor if their key sets are disjoint, and raises `TypeError` (returning
no record) on any key collision. -/
theorem forward_merge_spec {α : Type}
    (lt fl : List (String × α) → Except String (List (String × α)))
    (d t1 t2 : List (String × α))
    (h1 : lt d = Except.ok t1) (h2 : fl t1 = Except.ok t2) :
    forward lt fl d =
      if t2.any (fun p => d.any (fun q => decide (q.1 = p.1))) then
        Except.error "TypeError: got multiple values for keyword argument"
      else
        Except.ok (d ++ t2) := by
  simp [forward, h1, h2, mergeKwargs, to_dict]

/-- Witness for `forward_merge_spec` at a concrete disjoint-key input. -/
theorem forward_merge_spec_witness :
    forward freshLift Except.ok collideData = Except.ok [("x", 1), ("t", 5)] := by
  have h := forward_merge_spec freshLift Except.ok collideData [("t", 5)] [("t", 5)] rfl rfl
  simpa [collideData] using h

/-- C3: field preservation — whenever `forward` returns a record, every
field of the input record is present in the output with an unchanged value
(the output looks the original fields up before the lifted ones). -/
theorem forward_preserves_fields {α : Type}
    (lt fl : List (String × α) → Except String (List (String × α)))
    (d r : List (String × α))
    (h : forward lt fl d = Except.ok r) (k : String) (v : α)
    (hv : d.lookup k = some v) : r.lookup k = some v := by
  cases hlt : lt d with
  | error e => simp [forward, to_dict, hlt] at h
  | ok t1 =>
    cases hfl : fl t1 with
    | error e => simp [forward, to_dict, hlt, hfl] at h
    | ok t2 =>
      simp only [forward, to_dict, hlt, hfl, mergeKwargs] at h
      split at h
      · cases h
      · injection h with h
        subst h
        exact lookup_append_left d t2 k v hv

/-- Witness for `forward_preserves_fields` at a concrete input. -/
theorem forward_preserves_fields_witness :
    List.lookup "x" [("x", (1 : Nat)), ("t", 5)] = some 1 :=
  forward_preserves_fields freshLift Except.ok collideData
    [("x", 1), ("t", 5)] (by rfl) "x" 1 (by rfl)

/-- C5: an identifier outside the registry keys fails with `KeyError` at
construction, before any call; the two known identifiers (the strategy name
and the null identifier) construct successfully, resolving the strategy. -/
theorem registry_lookup_spec (name : Option String) :
    (name ≠ some "SumLifting" → name ≠ none →
      AbstractLifting.mkInst name = Except.error "KeyError") ∧
    AbstractLifting.mkInst (some "SumLifting") = Except.ok ⟨Strategy.sumLifting⟩ ∧
    AbstractLifting.mkInst none = Except.ok ⟨Strategy.identityTransform⟩ := by
  refine ⟨?_, rfl, rfl⟩
  intro h1 h2
  match name with
  | none => exact absurd rfl h2
  | some s =>
    have hs : s ≠ "SumLifting" := by
      intro h
      exact h1 (by rw [h])
    simp [AbstractLifting.mkInst, FEATURE_LIFTINGS, hs]

/-- Witness for `registry_lookup_spec` at the unknown name `"Bogus"`. -/
theorem registry_lookup_spec_witness :
    AbstractLifting.mkInst (some "Bogus") = Except.error "KeyError" :=
  (registry_lookup_spec (some "Bogus")).1 (by decide) (by decide)

/-- C7: the abstract `lift_topology` raises `NotImplementedError` on every
input, both when called directly and through `forward` (the error aborts
the pipeline before the feature-lifting stage runs). -/
theorem lift_topology_not_implemented {α : Type}
    (fl : List (String × α) → Except String (List (String × α)))
    (d : List (String × α)) :
    AbstractLifting.lift_topology d = Except.error "NotImplementedError" ∧
    forward AbstractLifting.lift_topology fl d = Except.error "NotImplementedError" :=
  ⟨rfl, rfl⟩

/-- C8: every domain-specific variant constructed with its default
`feature_lifting` argument resolves the sum-based strategy, while the
domain-agnostic base defaults to the identity strategy keyed by `None`. -/
theorem default_strategies_resolved :
    GraphLifting.mkDefault = Except.ok ⟨Strategy.sumLifting, false, none⟩ ∧
    PointCloudLifting.mkDefault = Except.ok ⟨Strategy.sumLifting⟩ ∧
    CellComplexLifting.mkDefault = Except.ok ⟨Strategy.sumLifting⟩ ∧
    SimplicialLifting.mkDefault = Except.ok ⟨Strategy.sumLifting⟩ ∧
    HypergraphLifting.mkDefault = Except.ok ⟨Strategy.sumLifting⟩ ∧
    CombinatorialLifting.mkDefault = Except.ok ⟨Strategy.sumLifting⟩ ∧
    AbstractLifting.mkDefault = Except.ok ⟨Strategy.identityTransform⟩ := by
  exact ⟨rfl, rfl, rfl, rfl, rfl, rfl, rfl⟩

/-! ## `GraphLifting._generate_graph_from_data`

The input `Data` object is modelled by its three tensors: the node-feature
matrix `x` (list of rows), the edge-index tensor (list of its `E` columns,
each a directed pair), and the optional edge-attribute matrix.  Node ids
and tensor entries are integers.

The torch_geometric utilities `is_undirected` and `to_undirected` are
embedded below; note that in the source the conditional expression

  `edge_index, edge_attr = data.edge_index, data.edge_attr if is_undirected(...) else to_undirected(...)`

binds the conditional to the second tuple component only, so in the
non-undirected branch `edge_attr` becomes the *pair* returned by
`to_undirected` while `edge_index` stays the original tensor.  The model
keeps that behaviour: the object indexed by `edge_attr[edge_idx]` is
either a tensor of attribute rows or that pair. -/

/-- The `Data` object fields used by `_generate_graph_from_data`. -/
structure PData where
  x : List (List Int)
  edge_index : List (Nat × Nat)
  edge_attr : Option (List (List Int))
deriving DecidableEq

/-- A Python value stored under the `features` key of an edge:
either a tensor row (the intended case), or — through the tuple returned
by `to_undirected` — a whole edge-index tensor or attribute tensor. -/
inductive Feat where
  | vec : List Int → Feat
  | idxMat : List (Nat × Nat) → Feat
  | attrMat : List (List Int) → Feat
deriving DecidableEq

/-- A `networkx.Graph`: insertion-ordered nodes with their attribute dicts
(`none` = empty dict, `some (features, dim)` = the two-key dict built by
the source), and insertion-ordered undirected edges keyed by the first
orientation seen, with their attribute dicts. -/
structure NXGraph where
  nodes : List (Nat × Option (List Int × Nat))
  edges : List ((Nat × Nat) × Option (Feat × Nat))
deriving DecidableEq

/-- The empty `nx.Graph()`. -/
def NXGraph.empty : NXGraph := ⟨[], []⟩

/-- Equality of undirected edge keys: `(i,j)` names the same `nx.Graph`
edge as `(j,i)`. -/
def pairEqv (p q : Nat × Nat) : Bool :=
  (decide (p.1 = q.1) && decide (p.2 = q.2)) || (decide (p.1 = q.2) && decide (p.2 = q.1))

/-- `dict.update` on the attribute dicts built by the source: updating with
an empty dict keeps the old bindings, updating with a full
`{features, dim}` dict replaces both bindings. -/
def updDict {β : Type} (old new : Option β) : Option β :=
  match new with
  | none => old
  | some b => some b

/-- `nx.Graph.add_node`-style insertion used by `add_nodes_from`:
update the attribute dict of an existing node, else append a new node. -/
def NXGraph.addNode (g : NXGraph) (n : Nat) (a : Option (List Int × Nat)) : NXGraph :=
  if g.nodes.any (fun p => decide (p.1 = n)) then
    { g with nodes := g.nodes.map (fun p => if p.1 = n then (p.1, updDict p.2 a) else p) }
  else
    { g with nodes := g.nodes ++ [(n, a)] }

/-- `nx.Graph.add_nodes_from`. -/
def NXGraph.addNodesFrom (g : NXGraph) (l : List (Nat × Option (List Int × Nat))) : NXGraph :=
  l.foldl (fun acc p => acc.addNode p.1 p.2) g

/-- Node creation performed by `add_edge` for a missing endpoint:
a node with an empty attribute dict is appended; existing nodes are
untouched. -/
def NXGraph.touchNode (g : NXGraph) (n : Nat) : NXGraph :=
  if g.nodes.any (fun p => decide (p.1 = n)) then g
  else { g with nodes := g.nodes ++ [(n, none)] }

/-- `nx.Graph.add_edge(u, v, **attrs)`: both endpoints are created if
missing; an existing undirected edge (in either orientation) has its
attribute dict updated, otherwise the edge is appended. -/
def NXGraph.addEdge (g : NXGraph) (e : (Nat × Nat) × Option (Feat × Nat)) : NXGraph :=
  let g1 := (g.touchNode e.1.1).touchNode e.1.2
  if g1.edges.any (fun p => pairEqv p.1 e.1) then
    { g1 with edges := g1.edges.map (fun p => if pairEqv p.1 e.1 then (p.1, updDict p.2 e.2) else p) }
  else
    { g1 with edges := g1.edges ++ [e] }

/-- `nx.Graph.add_edges_from`. -/
def NXGraph.addEdgesFrom (g : NXGraph) (l : List ((Nat × Nat) × Option (Feat × Nat))) : NXGraph :=
  l.foldl NXGraph.addEdge g

/-- Strict lexicographic order on edge columns, the sort key used by
`torch_geometric.utils.sort_edge_index` (`row * num_nodes + col`). -/
def keyLt (p q : Nat × Nat) : Bool :=
  decide (p.1 < q.1) || (decide (p.1 = q.1) && decide (p.2 < q.2))

/-- Stable insertion into a sorted edge list: the new entry goes before the
first strictly greater key, hence after all entries with an equal key. -/
def insertEdgeSorted (x : (Nat × Nat) × List Int) :
    List ((Nat × Nat) × List Int) → List ((Nat × Nat) × List Int)
  | [] => [x]
  | y :: ys => if keyLt x.1 y.1 then x :: y :: ys else y :: insertEdgeSorted x ys

/-- `sort_edge_index`: stable sort of the (edge column, attribute row)
pairs by lexicographic key. -/
def sort_edge_index (l : List ((Nat × Nat) × List Int)) :
    List ((Nat × Nat) × List Int) :=
  l.foldl (fun acc x => insertEdgeSorted x acc) []

/-- `torch_geometric.utils.is_undirected(edge_index, edge_attr)`:
sort the edge list, sort its flipped version, and compare both the edge
indices and the attributes. -/
def is_undirected (ei : List (Nat × Nat)) (ea : List (List Int)) : Bool :=
  let s1 := sort_edge_index (ei.zip ea)
  let s2 := sort_edge_index (s1.map (fun e => ((e.1.2, e.1.1), e.2)))
  decide (s1 = s2)

/-- Summation of consecutive duplicate keys in a sorted edge list, the
`reduce="add"` step of `coalesce`. -/
def mergeAdjAux (k : Nat × Nat) (a : List Int) :
    List ((Nat × Nat) × List Int) → List ((Nat × Nat) × List Int)
  | [] => [(k, a)]
  | (k2, a2) :: rest =>
    if k = k2 then mergeAdjAux k (List.zipWith (· + ·) a a2) rest
    else (k, a) :: mergeAdjAux k2 a2 rest

/-- `torch_geometric.utils.coalesce`: sort, then merge duplicate edges
summing their attributes. -/
def coalesce (l : List ((Nat × Nat) × List Int)) : List ((Nat × Nat) × List Int) :=
  match sort_edge_index l with
  | [] => []
  | (k, a) :: rest => mergeAdjAux k a rest

/-- `torch_geometric.utils.to_undirected(edge_index, edge_attr)`:
concatenate the edge list with its flipped copy, duplicate the attributes,
and coalesce; returns the pair (new edge index, new edge attributes). -/
def to_undirected (ei : List (Nat × Nat)) (ea : List (List Int)) :
    List (Nat × Nat) × List (List Int) :=
  let ei2 := ei ++ ei.map (fun p => (p.2, p.1))
  let ea2 := ea ++ ea
  let merged := coalesce (ei2.zip ea2)
  (merged.map (fun e => e.1), merged.map (fun e => e.2))

/-- `GraphLifting._data_has_edge_attr`. -/
def data_has_edge_attr (d : PData) : Bool := d.edge_attr.isSome

/-- The Python object bound to the local `edge_attr` in the source's
preserve branch: the attribute tensor when the input is already
undirected, otherwise the *pair* returned by `to_undirected` (the
conditional expression only covers the second component of the
assignment). -/
inductive AttrObj where
  | tensor : List (List Int) → AttrObj
  | tuple : List (Nat × Nat) → List (List Int) → AttrObj
deriving DecidableEq

/-- Python indexing `edge_attr[edge_idx]` on that object: a tensor yields
its row (IndexError out of range); a pair yields its components for
indices 0 and 1 and raises IndexError from index 2 on. -/
def AttrObj.getItem : AttrObj → Nat → Except String Feat
  | AttrObj.tensor rows, idx =>
    match rows.get? idx with
    | some r => Except.ok (Feat.vec r)
    | none => Except.error "IndexError"
  | AttrObj.tuple ei2 _, 0 => Except.ok (Feat.idxMat ei2)
  | AttrObj.tuple _ ea2, 1 => Except.ok (Feat.attrMat ea2)
  | AttrObj.tuple _ _, _ => Except.error "IndexError"

/-- The `edge_attr` object of the preserve branch for a given input. -/
def attrObjOf (d : PData) : AttrObj :=
  let ea := d.edge_attr.getD []
  if is_undirected d.edge_index ea then AttrObj.tensor ea
  else
    let u := to_undirected d.edge_index ea
    AttrObj.tuple u.1 u.2

/-- The node list `[(n, dict(features=data.x[n], dim=0)) for n in range(data.x.shape[0])]`. -/
def nodesOf (d : PData) : List (Nat × Option (List Int × Nat)) :=
  d.x.enum.map (fun p => (p.1, some (p.2, 0)))

/-- The attributed edge list of the preserve branch:
`[(i, j, dict(features=edge_attr[edge_idx], dim=1)) for edge_idx, (i, j) in enumerate(zip(edge_index[0], edge_index[1]))]`,
evaluated left to right, propagating the first IndexError. -/
def buildAttrEdges (ao : AttrObj) (idx : Nat) :
    List (Nat × Nat) → Except String (List ((Nat × Nat) × Option (Feat × Nat)))
  | [] => Except.ok []
  | (i, j) :: rest =>
    match ao.getItem idx with
    | Except.error e => Except.error e
    | Except.ok f =>
      match buildAttrEdges ao (idx + 1) rest with
      | Except.error e => Except.error e
      | Except.ok es => Except.ok (((i, j), some (f, 1)) :: es)

/-- `GraphLifting._generate_graph_from_data(data)`: build the node list,
build the edge list of the chosen branch, set `self.contains_edge_attr`,
and insert everything into a fresh `nx.Graph`.  The updated instance state
is returned alongside the graph. -/
def generate_graph_from_data (s : GraphLiftingInst) (d : PData) :
    Except String (GraphLiftingInst × NXGraph) :=
  if s.preserve_edge_attr && data_has_edge_attr d then
    match buildAttrEdges (attrObjOf d) 0 d.edge_index with
    | Except.error e => Except.error e
    | Except.ok edges =>
      Except.ok ({ s with contains_edge_attr := some true },
        (NXGraph.empty.addNodesFrom (nodesOf d)).addEdgesFrom edges)
  else
    Except.ok ({ s with contains_edge_attr := some false },
      (NXGraph.empty.addNodesFrom (nodesOf d)).addEdgesFrom
        (d.edge_index.map (fun p => (p, (none : Option (Feat × Nat))))))

/-- First matching edge-attribute dict of the undirected pair `p`,
`none` when the edge is absent. -/
def NXGraph.findEdgeAttr (g : NXGraph) (p : Nat × Nat) : Option (Option (Feat × Nat)) :=
  (g.edges.find? (fun e => pairEqv e.1 p)).map (fun e => e.2)

/-- Attribute dict of node `n`, `none` when the node is absent. -/
def NXGraph.nodeAttr (g : NXGraph) (n : Nat) : Option (Option (List Int × Nat)) :=
  (g.nodes.find? (fun p => decide (p.1 = n))).map (fun p => p.2)

/-- No two stored edges name the same undirected pair. -/
def edgeKeysDistinct (g : NXGraph) : Prop :=
  g.edges.Pairwise (fun e1 e2 => pairEqv e1.1 e2.1 = false)

/-! ## Concrete inputs used by the counterexamples and witnesses -/

/-- A `GraphLifting` instance fresh from construction with
`preserve_edge_attr=True` (strategy resolved, `contains_edge_attr` unset). -/
def presInst : GraphLiftingInst := ⟨Strategy.sumLifting, true, none⟩

/-- A `GraphLifting` instance fresh from construction with
`preserve_edge_attr=False`. -/
def plainInst : GraphLiftingInst := ⟨Strategy.sumLifting, false, none⟩

/-- Scenario C input: two nodes, the single directed edge `(0,1)` with
attribute row `[9]`. -/
def dataC : PData := ⟨[[0], [0]], [(0, 1)], some [[9]]⟩

/-- Scenario B input: two nodes, the symmetric edges `(0,1)`/`(1,0)` both
with attribute row `[5]`. -/
def dataB : PData := ⟨[[1], [2]], [(0, 1), (1, 0)], some [[5], [5]]⟩

/-- Two nodes joined by one plain edge, no edge attributes. -/
def dataPlain : PData := ⟨[[1], [2]], [(0, 1)], none⟩

/-- An empty input: no nodes, no edges. -/
def dataEmpty : PData := ⟨[], [], none⟩

/-- One node-feature row but an edge reaching the out-of-range node id 2. -/
def dataStray : PData := ⟨[[7]], [(0, 2)], none⟩

/-- C1 (code bug): on the asymmetric Scenario C input the helper does not
attach attribute `[9]` to a synthesized reverse edge.  The tuple returned
by `to_undirected` is bound whole to `edge_attr` (the conditional in the
assignment covers only the second component), so the single stored edge
`(0,1)` gets the symmetrized edge-index tensor `[[0,1],[1,0]]` as its
`features` value, and no edge of the graph carries attribute `[9]`. -/
theorem scenario_c_reverse_attr_bug :
    generate_graph_from_data presInst dataC =
      Except.ok (⟨Strategy.sumLifting, true, some true⟩,
        ⟨[(0, some ([0], 0)), (1, some ([0], 0))],
         [((0, 1), some (Feat.idxMat [(0, 1), (1, 0)], 1))]⟩) ∧
    NXGraph.findEdgeAttr
        ⟨[(0, some ([0], 0)), (1, some ([0], 0))],
         [((0, 1), some (Feat.idxMat [(0, 1), (1, 0)], 1))]⟩ (1, 0) =
      some (some (Feat.idxMat [(0, 1), (1, 0)], 1)) :=
  ⟨rfl, rfl⟩

/-- C4 counterexample: calling the graph-reconstruction helper mutates the
instance — `contains_edge_attr`, unset at construction, is `some false`
after the call, so mutable state beyond the strategy reference does
survive between calls. -/
theorem contains_edge_attr_mutation :
    plainInst.contains_edge_attr = none ∧
    Except.map (fun p => p.1.contains_edge_attr)
        (generate_graph_from_data plainInst dataEmpty) = Except.ok (some false) :=
  ⟨rfl, rfl⟩

/-- C4 (amended): the graph returned by the helper is a deterministic
function of the input data and the `preserve_edge_attr` configuration
alone — in particular it does not depend on the previously recorded
`contains_edge_attr` value or on the resolved strategy — even though the
call also rewrites `contains_edge_attr` on the instance. -/
theorem generate_output_state_independent (s1 s2 : GraphLiftingInst) (d : PData)
    (hp : s1.preserve_edge_attr = s2.preserve_edge_attr) :
    Except.map (fun p => p.2) (generate_graph_from_data s1 d) =
    Except.map (fun p => p.2) (generate_graph_from_data s2 d) := by
  unfold generate_graph_from_data
  rw [hp]
  cases hc : s2.preserve_edge_attr && data_has_edge_attr d with
  | false => simp [hc, Except.map]
  | true =>
    simp only [hc, if_true]
    cases h : buildAttrEdges (attrObjOf d) 0 d.edge_index <;> simp [h, Except.map]

/-- Witness for `generate_output_state_independent`: two instances that
differ only in the recorded `contains_edge_attr` produce the same graph. -/
theorem generate_output_state_independent_witness :
    Except.map (fun p => p.2)
        (generate_graph_from_data ⟨Strategy.sumLifting, false, none⟩ dataPlain) =
    Except.map (fun p => p.2)
        (generate_graph_from_data ⟨Strategy.sumLifting, false, some true⟩ dataPlain) :=
  generate_output_state_independent ⟨Strategy.sumLifting, false, none⟩
    ⟨Strategy.sumLifting, false, some true⟩ dataPlain rfl

/-- C6 counterexample: with `preserve_edge_attr=False` the helper stores
edges with an empty attribute dict — the edge `(0,1)` carries no `dim`
tag at all. -/
theorem dim_tag_missing_counterexample :
    Except.map (fun p => p.2.edges) (generate_graph_from_data plainInst dataPlain) =
      Except.ok [((0, 1), none)] :=
  rfl

/-! ## Basic properties of the undirected edge-key relation -/

/-- Propositional characterization of `pairEqv`. -/
theorem pairEqv_iff (p q : Nat × Nat) :
    pairEqv p q = true ↔ (p.1 = q.1 ∧ p.2 = q.2) ∨ (p.1 = q.2 ∧ p.2 = q.1) := by
  simp [pairEqv]

/-- `pairEqv` is reflexive. -/
theorem pairEqv_refl (p : Nat × Nat) : pairEqv p p = true := by
  simp [pairEqv]

/-- `pairEqv` is symmetric. -/
theorem pairEqv_symm {p q : Nat × Nat} (h : pairEqv p q = true) : pairEqv q p = true := by
  rw [pairEqv_iff] at h ⊢
  omega

/-- `pairEqv` is transitive. -/
theorem pairEqv_trans {p q r : Nat × Nat} (h1 : pairEqv p q = true)
    (h2 : pairEqv q r = true) : pairEqv p r = true := by
  rw [pairEqv_iff] at h1 h2 ⊢
  omega

/-- A key equivalent to `e` and a key not equivalent to `e` are not
equivalent to each other. -/
theorem pairEqv_ne_of_eqv_ne {p e q : Nat × Nat} (h1 : pairEqv p e = true)
    (h2 : pairEqv e q = false) : pairEqv p q = false := by
  cases h3 : pairEqv p q with
  | false => rfl
  | true => rw [pairEqv_trans (pairEqv_symm h1) h3] at h2; cases h2

/-! ## Structural lemmas about the graph-insertion operations -/

/-- `touchNode` leaves the edge list unchanged. -/
theorem touchNode_edges (g : NXGraph) (n : Nat) : (g.touchNode n).edges = g.edges := by
  unfold NXGraph.touchNode
  split <;> rfl

/-- `addNode` leaves the edge list unchanged. -/
theorem addNode_edges (g : NXGraph) (n : Nat) (a : Option (List Int × Nat)) :
    (g.addNode n a).edges = g.edges := by
  unfold NXGraph.addNode
  split <;> rfl

/-- `addNodesFrom` leaves the edge list unchanged. -/
theorem addNodesFrom_edges (l : List (Nat × Option (List Int × Nat))) (g : NXGraph) :
    (g.addNodesFrom l).edges = g.edges := by
  induction l generalizing g with
  | nil => rfl
  | cons p rest ih =>
    unfold NXGraph.addNodesFrom at ih ⊢
    rw [List.foldl_cons, ih, addNode_edges]

/-- `addEdge` leaves the node list of its `touchNode` phase unchanged. -/
theorem addEdge_nodes (g : NXGraph) (e : (Nat × Nat) × Option (Feat × Nat)) :
    (g.addEdge e).nodes = ((g.touchNode e.1.1).touchNode e.1.2).nodes := by
  simp only [NXGraph.addEdge]
  split <;> rfl

/-- The edge list after `addEdge`: updated in place when the undirected key
is present, appended otherwise. -/
theorem addEdge_edges (g : NXGraph) (e : (Nat × Nat) × Option (Feat × Nat)) :
    (g.addEdge e).edges =
      if g.edges.any (fun p => pairEqv p.1 e.1) then
        g.edges.map (fun p => if pairEqv p.1 e.1 then (p.1, updDict p.2 e.2) else p)
      else
        g.edges ++ [e] := by
  simp only [NXGraph.addEdge, touchNode_edges]
  split <;> rfl

/-- Inserting an edge keeps the undirected edge keys pairwise distinct. -/
theorem addEdge_preserves_distinct (g : NXGraph) (e : (Nat × Nat) × Option (Feat × Nat))
    (h : edgeKeysDistinct g) : edgeKeysDistinct (g.addEdge e) := by
  unfold edgeKeysDistinct at h ⊢
  rw [addEdge_edges]
  split
  · refine h.map _ (fun a b hab => ?_)
    by_cases ha : pairEqv a.1 e.1 = true <;> by_cases hb : pairEqv b.1 e.1 = true <;>
      simp [ha, hb, hab]
  · next hany =>
      rw [List.pairwise_append]
      refine ⟨h, List.pairwise_singleton _ _, ?_⟩
      intro a ha b hb
      rw [List.mem_singleton] at hb
      subst hb
      cases hae : pairEqv a.1 b.1 with
      | false => rfl
      | true => exact absurd (List.any_eq_true.mpr ⟨a, ha, hae⟩) hany

/-- `addEdgesFrom` keeps the undirected edge keys pairwise distinct. -/
theorem addEdgesFrom_distinct (l : List ((Nat × Nat) × Option (Feat × Nat)))
    (g : NXGraph) (h : edgeKeysDistinct g) : edgeKeysDistinct (g.addEdgesFrom l) := by
  induction l generalizing g with
  | nil => exact h
  | cons e rest ih =>
    unfold NXGraph.addEdgesFrom at ih ⊢
    rw [List.foldl_cons]
    exact ih _ (addEdge_preserves_distinct g e h)

/-- In-place update for a key not equivalent to `q` does not change the
first entry matching `q`. -/
theorem find?_updList_ne (l : List ((Nat × Nat) × Option (Feat × Nat)))
    (e : (Nat × Nat) × Option (Feat × Nat)) (q : Nat × Nat)
    (hne : pairEqv e.1 q = false) :
    (l.map (fun p => if pairEqv p.1 e.1 then (p.1, updDict p.2 e.2) else p)).find?
        (fun x => pairEqv x.1 q) =
      l.find? (fun x => pairEqv x.1 q) := by
  induction l with
  | nil => rfl
  | cons p rest ih =>
    simp only [List.map_cons]
    cases hpq : pairEqv p.1 q with
    | true =>
      have hpe : pairEqv p.1 e.1 = false := by
        cases hpe : pairEqv p.1 e.1 with
        | false => rfl
        | true => simp [pairEqv_trans (pairEqv_symm hpe) hpq] at hne
      rw [if_neg (by simp [hpe]), List.find?_cons_of_pos _ (by simpa using hpq),
        List.find?_cons_of_pos _ (by simpa using hpq)]
    | false =>
      by_cases hpe : pairEqv p.1 e.1 = true
      · rw [if_pos hpe, List.find?_cons_of_neg _ (by simp [hpq]),
          List.find?_cons_of_neg _ (by simp [hpq])]
        exact ih
      · rw [if_neg hpe, List.find?_cons_of_neg _ (by simp [hpq]),
          List.find?_cons_of_neg _ (by simp [hpq])]
        exact ih

/-- `addEdge` with a key not equivalent to `q` leaves `q`'s attribute
lookup unchanged. -/
theorem findEdgeAttr_addEdge_ne (g : NXGraph) (e : (Nat × Nat) × Option (Feat × Nat))
    (q : Nat × Nat) (hne : pairEqv e.1 q = false) :
    (g.addEdge e).findEdgeAttr q = g.findEdgeAttr q := by
  unfold NXGraph.findEdgeAttr
  rw [addEdge_edges]
  split
  · rw [find?_updList_ne _ _ _ hne]
  · rw [List.find?_append, List.find?_cons_of_neg _ (by simp [hne])]
    simp

/-- In-place update with payload `some a` for a key equivalent to `q`
makes `q`'s first matching payload `some a`. -/
theorem find?_updList_eq (l : List ((Nat × Nat) × Option (Feat × Nat)))
    (e : (Nat × Nat) × Option (Feat × Nat)) (q : Nat × Nat) (a : Feat × Nat)
    (heq : pairEqv e.1 q = true) (ha : e.2 = some a)
    (hex : l.any (fun p => pairEqv p.1 e.1) = true) :
    ((l.map (fun p => if pairEqv p.1 e.1 then (p.1, updDict p.2 e.2) else p)).find?
        (fun x => pairEqv x.1 q)).map (fun x => x.2) = some (some a) := by
  induction l with
  | nil => cases hex
  | cons p rest ih =>
    simp only [List.map_cons]
    by_cases hpe : pairEqv p.1 e.1 = true
    · rw [if_pos hpe,
        List.find?_cons_of_pos _ (by simpa using pairEqv_trans hpe heq)]
      simp [updDict, ha]
    · have hpef : pairEqv p.1 e.1 = false := by
        cases hx : pairEqv p.1 e.1 with
        | false => rfl
        | true => exact absurd hx hpe
      have hpq : pairEqv p.1 q = false := by
        cases hx : pairEqv p.1 q with
        | false => rfl
        | true => exact absurd (pairEqv_trans hx (pairEqv_symm heq)) hpe
      rw [if_neg hpe, List.find?_cons_of_neg _ (by simp [hpq])]
      apply ih
      simpa [List.any_cons, hpef] using hex

/-- `addEdge` with payload `some a` for a key equivalent to `q` makes
`q`'s attribute lookup `some (some a)` (both when the edge existed and
when it is new). -/
theorem findEdgeAttr_addEdge_eq (g : NXGraph) (e : (Nat × Nat) × Option (Feat × Nat))
    (q : Nat × Nat) (a : Feat × Nat)
    (heq : pairEqv e.1 q = true) (ha : e.2 = some a) :
    (g.addEdge e).findEdgeAttr q = some (some a) := by
  unfold NXGraph.findEdgeAttr
  rw [addEdge_edges]
  split
  · next hany => exact find?_updList_eq _ _ _ _ heq ha hany
  · next hany =>
      have h1 : g.edges.find? (fun x => pairEqv x.1 q) = none := by
        rw [List.find?_eq_none]
        intro x hx
        simp only [Bool.not_eq_true]
        cases hxq : pairEqv x.1 q with
        | false => rfl
        | true =>
          exact absurd
            (List.any_eq_true.mpr ⟨x, hx, pairEqv_trans hxq (pairEqv_symm heq)⟩) hany
      rw [List.find?_append, h1, List.find?_cons_of_pos _ (by simpa using heq)]
      simp [ha]

/-- Payload of the last entry of `l` whose key names the undirected pair
`q` (`none` when no entry matches). -/
def lastMatchPayload (q : Nat × Nat) :
    List ((Nat × Nat) × Option (Feat × Nat)) → Option (Option (Feat × Nat))
  | [] => none
  | e :: rest =>
    match lastMatchPayload q rest with
    | some a => some a
    | none => if pairEqv e.1 q then some e.2 else none

/-- If no entry matches, every key of the list avoids `q`. -/
theorem lastMatchPayload_eq_none {q : Nat × Nat}
    {l : List ((Nat × Nat) × Option (Feat × Nat))}
    (h : lastMatchPayload q l = none) : ∀ e ∈ l, pairEqv e.1 q = false := by
  induction l with
  | nil => intro e he; cases he
  | cons e rest ih =>
    intro x hx
    simp only [lastMatchPayload] at h
    cases hr : lastMatchPayload q rest with
    | some a => simp [hr] at h
    | none =>
      simp only [hr] at h
      rcases List.mem_cons.mp hx with hx | hx
      · subst hx
        cases hb : pairEqv x.1 q with
        | false => rfl
        | true => rw [if_pos hb] at h; cases h
      · exact ih hr x hx

/-- Conversely, a list whose keys all avoid `q` has no matching entry. -/
theorem lastMatchPayload_none_of {q : Nat × Nat}
    {l : List ((Nat × Nat) × Option (Feat × Nat))}
    (h : ∀ e ∈ l, pairEqv e.1 q = false) : lastMatchPayload q l = none := by
  induction l with
  | nil => rfl
  | cons e rest ih =>
    simp only [lastMatchPayload, ih (fun x hx => h x (List.mem_cons_of_mem _ hx))]
    simp [h e (List.mem_cons_self _ _)]

/-- Inserting edges none of which matches `q` leaves `q`'s attribute
lookup unchanged. -/
theorem findEdgeAttr_addEdgesFrom_no_match
    (l : List ((Nat × Nat) × Option (Feat × Nat))) (g : NXGraph) (q : Nat × Nat)
    (h : ∀ e ∈ l, pairEqv e.1 q = false) :
    (g.addEdgesFrom l).findEdgeAttr q = g.findEdgeAttr q := by
  induction l generalizing g with
  | nil => rfl
  | cons e rest ih =>
    unfold NXGraph.addEdgesFrom at ih ⊢
    rw [List.foldl_cons, ih _ (fun x hx => h x (List.mem_cons_of_mem _ hx)),
      findEdgeAttr_addEdge_ne _ _ _ (h e (List.mem_cons_self _ _))]

/-- After inserting a list of edges, the attribute dict of a pair is the
payload of the list's last entry for that pair, whenever that payload is a
populated dict. -/
theorem findEdgeAttr_addEdgesFrom_last
    (l : List ((Nat × Nat) × Option (Feat × Nat))) (g : NXGraph) (q : Nat × Nat)
    (a : Feat × Nat) (h : lastMatchPayload q l = some (some a)) :
    (g.addEdgesFrom l).findEdgeAttr q = some (some a) := by
  induction l generalizing g with
  | nil => cases h
  | cons e rest ih =>
    unfold NXGraph.addEdgesFrom at ih ⊢
    rw [List.foldl_cons]
    simp only [lastMatchPayload] at h
    cases hr : lastMatchPayload q rest with
    | some x =>
      simp only [hr] at h
      injection h with h
      subst h
      exact ih _ hr
    | none =>
      simp only [hr] at h
      by_cases hq : pairEqv e.1 q = true
      · rw [if_pos hq] at h
        injection h with h
        have hrest := lastMatchPayload_eq_none hr
        show ((g.addEdge e).addEdgesFrom rest).findEdgeAttr q = _
        rw [findEdgeAttr_addEdgesFrom_no_match rest _ q hrest]
        exact findEdgeAttr_addEdge_eq _ _ _ _ hq h
      · rw [if_neg hq] at h; cases h

/-- The keys of the attributed edge list are exactly the input edge
columns, in order. -/
theorem buildAttrEdges_keys (ei : List (Nat × Nat)) :
    ∀ (ao : AttrObj) (idx : Nat) el, buildAttrEdges ao idx ei = Except.ok el →
      el.map Prod.fst = ei := by
  induction ei with
  | nil =>
    intro ao idx el h
    simp only [buildAttrEdges, Except.ok.injEq] at h
    subst h
    rfl
  | cons p rest ih =>
    intro ao idx el h
    obtain ⟨i, j⟩ := p
    simp only [buildAttrEdges] at h
    cases hg : ao.getItem idx with
    | error e => simp [hg] at h
    | ok f =>
      simp only [hg] at h
      cases hb : buildAttrEdges ao (idx + 1) rest with
      | error e => simp [hb] at h
      | ok el2 =>
        simp only [hb, Except.ok.injEq] at h
        subst h
        simp [ih ao (idx + 1) el2 hb]

/-- Every payload of the attributed edge list is a populated dict with
`dim=1`. -/
theorem buildAttrEdges_payloads (ei : List (Nat × Nat)) :
    ∀ (ao : AttrObj) (idx : Nat) el, buildAttrEdges ao idx ei = Except.ok el →
      ∀ e ∈ el, ∃ f, e.2 = some (f, 1) := by
  induction ei with
  | nil =>
    intro ao idx el h
    simp only [buildAttrEdges, Except.ok.injEq] at h
    subst h
    intro e he
    cases he
  | cons p rest ih =>
    intro ao idx el h
    obtain ⟨i, j⟩ := p
    simp only [buildAttrEdges] at h
    cases hg : ao.getItem idx with
    | error e => simp [hg] at h
    | ok f =>
      simp only [hg] at h
      cases hb : buildAttrEdges ao (idx + 1) rest with
      | error e => simp [hb] at h
      | ok el2 =>
        simp only [hb, Except.ok.injEq] at h
        subst h
        intro e he
        rcases List.mem_cons.mp he with he | he
        · subst he; exact ⟨f, rfl⟩
        · exact ih ao (idx + 1) el2 hb e he

/-- The last matching payload of the attributed edge list, for an input
column whose undirected pair does not recur later, is the attribute
fetched at that column's index. -/
theorem buildAttrEdges_lastMatch (ei : List (Nat × Nat)) :
    ∀ (ao : AttrObj) (idx0 : Nat) el, buildAttrEdges ao idx0 ei = Except.ok el →
    ∀ (idx i j : Nat) (f : Feat), ei.get? idx = some (i, j) →
    (∀ idx2 p2, idx < idx2 → ei.get? idx2 = some p2 → pairEqv p2 (i, j) = false) →
    ao.getItem (idx0 + idx) = Except.ok f →
    lastMatchPayload (i, j) el = some (some (f, 1)) := by
  induction ei with
  | nil => intro ao idx0 el h idx i j f hget hup hgf; cases hget
  | cons p rest ih =>
    intro ao idx0 el h idx i j f hget hup hgf
    obtain ⟨a, b⟩ := p
    simp only [buildAttrEdges] at h
    cases hg : ao.getItem idx0 with
    | error e => simp [hg] at h
    | ok f0 =>
      simp only [hg] at h
      cases hb : buildAttrEdges ao (idx0 + 1) rest with
      | error e => simp [hb] at h
      | ok el2 =>
        simp only [hb, Except.ok.injEq] at h
        subst h
        cases idx with
        | zero =>
          rw [List.get?_cons_zero] at hget
          injection hget with hget
          cases hget
          rw [Nat.add_zero, hg, Except.ok.injEq] at hgf
          subst hgf
          have hkeys := buildAttrEdges_keys rest ao (idx0 + 1) el2 hb
          have hnone : lastMatchPayload (i, j) el2 = none := by
            apply lastMatchPayload_none_of
            intro e he
            have hmem : e.1 ∈ rest := by
              rw [← hkeys]; exact List.mem_map_of_mem _ he
            obtain ⟨n, hn⟩ := List.mem_iff_get?.mp hmem
            exact hup (n + 1) e.1 (Nat.succ_pos n) (by simpa using hn)
          simp [lastMatchPayload, hnone, pairEqv_refl]
        | succ n =>
          have hget2 : rest.get? n = some (i, j) := by simpa using hget
          have hup2 : ∀ idx2 p2, n < idx2 → rest.get? idx2 = some p2 →
              pairEqv p2 (i, j) = false := by
            intro idx2 p2 hlt hg2
            exact hup (idx2 + 1) p2 (by omega) (by simpa using hg2)
          have hgf2 : ao.getItem (idx0 + 1 + n) = Except.ok f := by
            rw [show idx0 + 1 + n = idx0 + (n + 1) by omega]
            exact hgf
          have hrec := ih ao (idx0 + 1) el2 hb n i j f hget2 hup2 hgf2
          simp only [lastMatchPayload, hrec]

/-- C9: the `nx.Graph` representation admits no parallel edges — in every
graph the helper returns, duplicate entries and the two orientations of a
pair are collapsed to one stored edge — and, in the attribute-preserving
branch, the attribute dict of a pair is the payload of the last input
column for that pair. -/
theorem graph_collapses_parallel_edges (s st : GraphLiftingInst) (d : PData)
    (g : NXGraph) (h : generate_graph_from_data s d = Except.ok (st, g)) :
    edgeKeysDistinct g ∧
    (∀ (idx i j : Nat) (f : Feat),
      (s.preserve_edge_attr && data_has_edge_attr d) = true →
      d.edge_index.get? idx = some (i, j) →
      (∀ idx2 p2, idx < idx2 → d.edge_index.get? idx2 = some p2 →
        pairEqv p2 (i, j) = false) →
      (attrObjOf d).getItem idx = Except.ok f →
      g.findEdgeAttr (i, j) = some (some (f, 1))) := by
  unfold generate_graph_from_data at h
  by_cases hc : (s.preserve_edge_attr && data_has_edge_attr d) = true
  · rw [if_pos hc] at h
    cases hb : buildAttrEdges (attrObjOf d) 0 d.edge_index with
    | error e => rw [hb] at h; cases h
    | ok el =>
      rw [hb, Except.ok.injEq, Prod.mk.injEq] at h
      obtain ⟨hst, hg⟩ := h
      subst hg
      constructor
      · apply addEdgesFrom_distinct
        unfold edgeKeysDistinct
        rw [addNodesFrom_edges]
        exact List.Pairwise.nil
      · intro idx i j f hcond hget hup hgf
        have hlast := buildAttrEdges_lastMatch d.edge_index (attrObjOf d) 0 el hb
          idx i j f hget hup (by simpa using hgf)
        exact findEdgeAttr_addEdgesFrom_last el _ (i, j) (f, 1) hlast
  · rw [if_neg hc, Except.ok.injEq, Prod.mk.injEq] at h
    obtain ⟨hst, hg⟩ := h
    subst hg
    constructor
    · apply addEdgesFrom_distinct
      unfold edgeKeysDistinct
      rw [addNodesFrom_edges]
      exact List.Pairwise.nil
    · intro idx i j f hcond
      exact absurd hcond hc

/-- The graph the helper builds for the Scenario B input. -/
def graphB : NXGraph :=
  ⟨[(0, some ([1], 0)), (1, some ([2], 0))], [((0, 1), some (Feat.vec [5], 1))]⟩

/-- Witness for `graph_collapses_parallel_edges`: on Scenario B the two
orientations collapse to one stored edge whose attribute dict is the
payload of the last input column `(1,0)`. -/
theorem graph_collapses_parallel_edges_witness :
    graphB.findEdgeAttr (1, 0) = some (some (Feat.vec [5], 1)) :=
  (graph_collapses_parallel_edges presInst ⟨Strategy.sumLifting, true, some true⟩
      dataB graphB (by rfl)).2
    1 1 0 (Feat.vec [5]) (by rfl) (by rfl)
    (fun idx2 p2 h1 h2 => by
      match idx2, h2 with
      | 0, h2 => exact absurd h1 (by decide)
      | 1, h2 => exact absurd h1 (by decide)
      | n + 2, h2 => simp [dataB] at h2)
    (by rfl)

/-! ## Attribute-dict invariants of the insertion operations -/

/-- A property of node-attribute dicts survives `addNode` when the
inserted dict satisfies it. -/
theorem addNode_nodes_pred (P : Option (List Int × Nat) → Prop) (g : NXGraph)
    (n : Nat) (a : Option (List Int × Nat))
    (hg : ∀ p ∈ g.nodes, P p.2) (ha : P a) :
    ∀ p ∈ (g.addNode n a).nodes, P p.2 := by
  unfold NXGraph.addNode
  split
  · intro p hp
    rw [List.mem_map] at hp
    obtain ⟨x, hx, hfx⟩ := hp
    subst hfx
    by_cases hxe : x.1 = n
    · simp only [if_pos hxe]
      cases a with
      | none => exact hg x hx
      | some b => exact ha
    · simp only [if_neg hxe]
      exact hg x hx
  · intro p hp
    rcases List.mem_append.mp hp with hp | hp
    · exact hg p hp
    · rw [List.mem_singleton] at hp
      subst hp
      exact ha

/-- A property of node-attribute dicts holding for the empty dict
survives `touchNode`. -/
theorem touchNode_nodes_pred (P : Option (List Int × Nat) → Prop) (g : NXGraph)
    (n : Nat) (hg : ∀ p ∈ g.nodes, P p.2) (hnone : P none) :
    ∀ p ∈ (g.touchNode n).nodes, P p.2 := by
  unfold NXGraph.touchNode
  split
  · exact hg
  · intro p hp
    rcases List.mem_append.mp hp with hp | hp
    · exact hg p hp
    · rw [List.mem_singleton] at hp
      subst hp
      exact hnone

/-- A property of node-attribute dicts holding for the empty dict
survives `addEdge`. -/
theorem addEdge_nodes_pred (P : Option (List Int × Nat) → Prop) (g : NXGraph)
    (e : (Nat × Nat) × Option (Feat × Nat)) (hg : ∀ p ∈ g.nodes, P p.2)
    (hnone : P none) : ∀ p ∈ (g.addEdge e).nodes, P p.2 := by
  rw [addEdge_nodes]
  exact touchNode_nodes_pred P _ _ (touchNode_nodes_pred P _ _ hg hnone) hnone

/-- A property of node-attribute dicts holding for the empty dict
survives `addEdgesFrom`. -/
theorem addEdgesFrom_nodes_pred (P : Option (List Int × Nat) → Prop)
    (l : List ((Nat × Nat) × Option (Feat × Nat))) (g : NXGraph)
    (hg : ∀ p ∈ g.nodes, P p.2) (hnone : P none) :
    ∀ p ∈ (g.addEdgesFrom l).nodes, P p.2 := by
  induction l generalizing g with
  | nil => exact hg
  | cons e rest ih =>
    unfold NXGraph.addEdgesFrom at ih ⊢
    rw [List.foldl_cons]
    exact ih _ (addEdge_nodes_pred P g e hg hnone)

/-- A property of node-attribute dicts survives `addNodesFrom` when every
inserted dict satisfies it. -/
theorem addNodesFrom_nodes_pred (P : Option (List Int × Nat) → Prop)
    (l : List (Nat × Option (List Int × Nat))) (g : NXGraph)
    (hg : ∀ p ∈ g.nodes, P p.2) (hl : ∀ p ∈ l, P p.2) :
    ∀ p ∈ (g.addNodesFrom l).nodes, P p.2 := by
  induction l generalizing g with
  | nil => exact hg
  | cons p rest ih =>
    unfold NXGraph.addNodesFrom at ih ⊢
    rw [List.foldl_cons]
    exact ih _
      (addNode_nodes_pred P g p.1 p.2 hg (hl p (List.mem_cons_self _ _)))
      (fun x hx => hl x (List.mem_cons_of_mem _ hx))

/-- A property of edge-attribute dicts survives `addEdge` when the
inserted dict satisfies it. -/
theorem addEdge_edges_pred (Q : Option (Feat × Nat) → Prop) (g : NXGraph)
    (e : (Nat × Nat) × Option (Feat × Nat)) (hg : ∀ x ∈ g.edges, Q x.2)
    (he : Q e.2) : ∀ x ∈ (g.addEdge e).edges, Q x.2 := by
  rw [addEdge_edges]
  split
  · intro x hx
    rw [List.mem_map] at hx
    obtain ⟨y, hy, hfy⟩ := hx
    subst hfy
    by_cases hc : pairEqv y.1 e.1 = true
    · simp only [if_pos hc]
      cases hee : e.2 with
      | none => exact hg y hy
      | some b => rw [hee] at he; exact he
    · simp only [if_neg hc]
      exact hg y hy
  · intro x hx
    rcases List.mem_append.mp hx with hx | hx
    · exact hg x hx
    · rw [List.mem_singleton] at hx
      subst hx
      exact he

/-- A property of edge-attribute dicts survives `addEdgesFrom` when every
inserted dict satisfies it. -/
theorem addEdgesFrom_edges_pred (Q : Option (Feat × Nat) → Prop)
    (l : List ((Nat × Nat) × Option (Feat × Nat))) (g : NXGraph)
    (hg : ∀ x ∈ g.edges, Q x.2) (hl : ∀ e ∈ l, Q e.2) :
    ∀ x ∈ (g.addEdgesFrom l).edges, Q x.2 := by
  induction l generalizing g with
  | nil => exact hg
  | cons e rest ih =>
    unfold NXGraph.addEdgesFrom at ih ⊢
    rw [List.foldl_cons]
    exact ih _
      (addEdge_edges_pred Q g e hg (hl e (List.mem_cons_self _ _)))
      (fun x hx => hl x (List.mem_cons_of_mem _ hx))

/-- C6 (amended): every node attribute dict the helper populates carries
`dim=0` and every edge attribute dict it populates carries `dim=1`; edge
dicts are populated exactly in the attribute-preserving branch, and nodes
created only as edge endpoints keep an empty dict. -/
theorem dim_tags_amended (s st : GraphLiftingInst) (d : PData) (g : NXGraph)
    (h : generate_graph_from_data s d = Except.ok (st, g)) :
    (∀ p ∈ g.nodes, ∀ row dm, p.2 = some (row, dm) → dm = 0) ∧
    (∀ e ∈ g.edges, ∀ f dm, e.2 = some (f, dm) → dm = 1) ∧
    ((s.preserve_edge_attr && data_has_edge_attr d) = true →
      ∀ e ∈ g.edges, e.2 ≠ none) := by
  have hnodesOf : ∀ p ∈ nodesOf d, ∀ row dm, p.2 = some (row, dm) → dm = 0 := by
    intro p hp
    unfold nodesOf at hp
    rw [List.mem_map] at hp
    obtain ⟨x, hx, hfx⟩ := hp
    subst hfx
    intro row dm heq
    injection heq with heq
    injection heq with h1 h2
    omega
  have hnodes0 : ∀ p ∈ (NXGraph.empty.addNodesFrom (nodesOf d)).nodes,
      ∀ row dm, p.2 = some (row, dm) → dm = 0 :=
    addNodesFrom_nodes_pred (fun a => ∀ row dm, a = some (row, dm) → dm = 0)
      (nodesOf d) NXGraph.empty (fun p hp => absurd hp (List.not_mem_nil p)) hnodesOf
  have hedges0 : ∀ (Q : Option (Feat × Nat) → Prop),
      ∀ x ∈ (NXGraph.empty.addNodesFrom (nodesOf d)).edges, Q x.2 := by
    intro Q x hx
    rw [addNodesFrom_edges] at hx
    cases hx
  unfold generate_graph_from_data at h
  by_cases hc : (s.preserve_edge_attr && data_has_edge_attr d) = true
  · rw [if_pos hc] at h
    cases hb : buildAttrEdges (attrObjOf d) 0 d.edge_index with
    | error e => rw [hb] at h; cases h
    | ok el =>
      rw [hb, Except.ok.injEq, Prod.mk.injEq] at h
      obtain ⟨hst, hg⟩ := h
      subst hg
      refine ⟨?_, ?_, ?_⟩
      · exact addEdgesFrom_nodes_pred (fun a => ∀ row dm, a = some (row, dm) → dm = 0)
          el _ hnodes0 (fun row dm heq => Option.noConfusion heq)
      · refine addEdgesFrom_edges_pred (fun a => ∀ f dm, a = some (f, dm) → dm = 1)
          el _ (hedges0 (fun a => ∀ f dm, a = some (f, dm) → dm = 1)) ?_
        intro e he
        obtain ⟨f, hf⟩ := buildAttrEdges_payloads d.edge_index (attrObjOf d) 0 el hb e he
        intro f0 dm heq
        rw [hf] at heq
        injection heq with heq
        injection heq with h1 h2
        omega
      · intro hcond
        refine addEdgesFrom_edges_pred (fun a => a ≠ none) el _
          (hedges0 (fun a => a ≠ none)) ?_
        intro e he
        obtain ⟨f, hf⟩ := buildAttrEdges_payloads d.edge_index (attrObjOf d) 0 el hb e he
        rw [hf]
        exact Option.some_ne_none _
  · rw [if_neg hc, Except.ok.injEq, Prod.mk.injEq] at h
    obtain ⟨hst, hg⟩ := h
    subst hg
    refine ⟨?_, ?_, ?_⟩
    · exact addEdgesFrom_nodes_pred (fun a => ∀ row dm, a = some (row, dm) → dm = 0)
        _ _ hnodes0 (fun row dm heq => Option.noConfusion heq)
    · refine addEdgesFrom_edges_pred (fun a => ∀ f dm, a = some (f, dm) → dm = 1)
        _ _ (hedges0 (fun a => ∀ f dm, a = some (f, dm) → dm = 1)) ?_
      intro e he
      rw [List.mem_map] at he
      obtain ⟨y, hy, hfy⟩ := he
      subst hfy
      intro f0 dm heq
      cases heq
    · intro hcond
      exact absurd hcond hc

/-- Witness for `dim_tags_amended` on the Scenario B output: the stored
edge of `graphB` carries a populated dict, and its `dim` is 1. -/
theorem dim_tags_amended_witness :
    generate_graph_from_data presInst dataB =
      Except.ok (⟨Strategy.sumLifting, true, some true⟩, graphB) ∧ (1 : Nat) = 1 :=
  ⟨by rfl,
    (dim_tags_amended presInst ⟨Strategy.sumLifting, true, some true⟩ dataB graphB
        (by rfl)).2.1
      ((0, 1), some (Feat.vec [5], 1)) (by rw [graphB]; exact List.mem_cons_self _ _)
      (Feat.vec [5]) 1 rfl⟩

/-! ## Node lookup through the insertion operations -/

/-- A node is absent exactly when no stored node carries its id. -/
theorem nodeAttr_none_iff (g : NXGraph) (k : Nat) :
    g.nodeAttr k = none ↔ ∀ p ∈ g.nodes, p.1 ≠ k := by
  unfold NXGraph.nodeAttr
  rw [Option.map_eq_none', List.find?_eq_none]
  constructor
  · intro h p hp
    simpa using h p hp
  · intro h p hp
    simpa using h p hp

/-- `touchNode` keeps an existing node's attribute lookup. -/
theorem nodeAttr_touchNode_present (g : NXGraph) (n k : Nat)
    (a : Option (List Int × Nat)) (h : g.nodeAttr k = some a) :
    (g.touchNode n).nodeAttr k = some a := by
  unfold NXGraph.touchNode
  split
  · exact h
  · unfold NXGraph.nodeAttr at h ⊢
    cases hf : List.find? (fun p => decide (p.1 = k)) g.nodes with
    | none => rw [hf] at h; cases h
    | some x =>
      rw [hf] at h
      simp only [List.find?_append, hf, Option.or_some]
      exact h

/-- `touchNode` for a different id keeps an absent node absent. -/
theorem nodeAttr_touchNode_other (g : NXGraph) (n k : Nat) (hne : n ≠ k)
    (h : g.nodeAttr k = none) : (g.touchNode n).nodeAttr k = none := by
  unfold NXGraph.touchNode
  split
  · exact h
  · unfold NXGraph.nodeAttr at h ⊢
    rw [Option.map_eq_none'] at h ⊢
    rw [List.find?_append, h, Option.none_or,
      List.find?_cons_of_neg _ (by simp [hne])]
    rfl

/-- `touchNode` on an absent id stores it with an empty dict. -/
theorem nodeAttr_touchNode_self (g : NXGraph) (k : Nat)
    (h : g.nodeAttr k = none) : (g.touchNode k).nodeAttr k = some none := by
  unfold NXGraph.touchNode
  split
  · next hany =>
      exfalso
      rw [List.any_eq_true] at hany
      obtain ⟨p, hp, hpk⟩ := hany
      exact (nodeAttr_none_iff g k).mp h p hp (by simpa using hpk)
  · unfold NXGraph.nodeAttr at h ⊢
    rw [Option.map_eq_none'] at h
    rw [List.find?_append, h, Option.none_or, List.find?_cons_of_pos _ (by simp)]
    rfl

/-- `addEdge` keeps an existing node's attribute lookup. -/
theorem nodeAttr_addEdge_present (g : NXGraph) (e : (Nat × Nat) × Option (Feat × Nat))
    (k : Nat) (a : Option (List Int × Nat)) (h : g.nodeAttr k = some a) :
    (g.addEdge e).nodeAttr k = some a := by
  have h3 := nodeAttr_touchNode_present (g.touchNode e.1.1) e.1.2 k a
    (nodeAttr_touchNode_present g e.1.1 k a h)
  unfold NXGraph.nodeAttr at h3 ⊢
  rw [addEdge_nodes]
  exact h3

/-- `addEdge` keeps a node absent when it is not an endpoint. -/
theorem nodeAttr_addEdge_other (g : NXGraph) (e : (Nat × Nat) × Option (Feat × Nat))
    (k : Nat) (h : g.nodeAttr k = none) (h1 : e.1.1 ≠ k) (h2 : e.1.2 ≠ k) :
    (g.addEdge e).nodeAttr k = none := by
  have h4 := nodeAttr_touchNode_other (g.touchNode e.1.1) e.1.2 k h2
    (nodeAttr_touchNode_other g e.1.1 k h1 h)
  unfold NXGraph.nodeAttr at h4 ⊢
  rw [addEdge_nodes]
  exact h4

/-- `addEdge` stores a previously absent endpoint with an empty dict. -/
theorem nodeAttr_addEdge_endpoint (g : NXGraph) (e : (Nat × Nat) × Option (Feat × Nat))
    (k : Nat) (h : g.nodeAttr k = none) (hk : k = e.1.1 ∨ k = e.1.2) :
    (g.addEdge e).nodeAttr k = some none := by
  have hstep : ((g.touchNode e.1.1).touchNode e.1.2).nodeAttr k = some none := by
    rcases hk with hk | hk
    · rw [hk] at h ⊢
      exact nodeAttr_touchNode_present _ e.1.2 e.1.1 none
        (nodeAttr_touchNode_self g e.1.1 h)
    · by_cases h11 : e.1.1 = k
      · rw [hk] at h ⊢
        rw [hk] at h11
        rw [h11]
        exact nodeAttr_touchNode_present _ e.1.2 e.1.2 none
          (nodeAttr_touchNode_self g e.1.2 (h11 ▸ h))
      · rw [hk] at h ⊢
        exact nodeAttr_touchNode_self _ e.1.2
          (nodeAttr_touchNode_other g e.1.1 e.1.2 (hk ▸ h11) h)
  unfold NXGraph.nodeAttr at hstep ⊢
  rw [addEdge_nodes]
  exact hstep

/-- `addEdgesFrom` keeps an existing node's attribute lookup. -/
theorem nodeAttr_addEdgesFrom_present (l : List ((Nat × Nat) × Option (Feat × Nat)))
    (g : NXGraph) (k : Nat) (a : Option (List Int × Nat))
    (h : g.nodeAttr k = some a) : (g.addEdgesFrom l).nodeAttr k = some a := by
  induction l generalizing g with
  | nil => exact h
  | cons e rest ih =>
    unfold NXGraph.addEdgesFrom at ih ⊢
    rw [List.foldl_cons]
    exact ih _ (nodeAttr_addEdge_present g e k a h)

/-- A previously absent node that is an endpoint of some inserted edge
ends up stored with an empty dict. -/
theorem nodeAttr_addEdgesFrom_endpoint (l : List ((Nat × Nat) × Option (Feat × Nat)))
    (g : NXGraph) (k : Nat) (h : g.nodeAttr k = none)
    (hex : ∃ e ∈ l, k = e.1.1 ∨ k = e.1.2) :
    (g.addEdgesFrom l).nodeAttr k = some none := by
  induction l generalizing g with
  | nil => obtain ⟨e, he, _⟩ := hex; cases he
  | cons e rest ih =>
    unfold NXGraph.addEdgesFrom at ih ⊢
    rw [List.foldl_cons]
    by_cases hk : k = e.1.1 ∨ k = e.1.2
    · have h2 := nodeAttr_addEdgesFrom_present rest (g.addEdge e) k none
        (nodeAttr_addEdge_endpoint g e k h hk)
      unfold NXGraph.addEdgesFrom at h2
      exact h2
    · push_neg at hk
      have h2 := nodeAttr_addEdge_other g e k h
        (fun hh => hk.1 hh.symm) (fun hh => hk.2 hh.symm)
      obtain ⟨x, hx, hxk⟩ := hex
      rcases List.mem_cons.mp hx with hx | hx
      · subst hx
        exact absurd hxk (not_or.mpr hk)
      · exact ih _ h2 ⟨x, hx, hxk⟩

/-- Inserting nodes with fresh, pairwise-distinct ids appends them. -/
theorem addNodesFrom_nodes_fresh (l : List (Nat × Option (List Int × Nat))) :
    ∀ (g : NXGraph), (∀ p ∈ l, ∀ x ∈ g.nodes, x.1 ≠ p.1) →
    (l.map Prod.fst).Nodup → (g.addNodesFrom l).nodes = g.nodes ++ l := by
  induction l with
  | nil => intro g _ _; simp [NXGraph.addNodesFrom]
  | cons p rest ih =>
    intro g hdisj hnodup
    unfold NXGraph.addNodesFrom at ih ⊢
    rw [List.foldl_cons]
    have hany : g.nodes.any (fun x => decide (x.1 = p.1)) = false := by
      rw [List.any_eq_false]
      intro x hx
      simp [hdisj p (List.mem_cons_self _ _) x hx]
    have hstep : g.addNode p.1 p.2 = { g with nodes := g.nodes ++ [p] } := by
      unfold NXGraph.addNode
      rw [if_neg (by simp [hany])]
    rw [hstep, ih { g with nodes := g.nodes ++ [p] } ?_ ?_]
    · simp
    · intro q hq x hx
      rcases List.mem_append.mp hx with hx | hx
      · exact hdisj q (List.mem_cons_of_mem _ hq) x hx
      · rw [List.mem_singleton] at hx
        subst hx
        intro hcontra
        rw [List.map_cons, List.nodup_cons] at hnodup
        exact hnodup.1 (hcontra ▸ List.mem_map_of_mem Prod.fst hq)
    · rw [List.map_cons, List.nodup_cons] at hnodup
      exact hnodup.2

/-- The node ids produced by `nodesOf` are `0, 1, …, len(x) - 1`. -/
theorem nodesOf_map_fst (d : PData) :
    (nodesOf d).map Prod.fst = List.range d.x.length := by
  unfold nodesOf
  rw [List.map_map]
  have hcomp : (Prod.fst ∘ fun p : Nat × List Int => (p.1, some (p.2, (0 : Nat)))) =
      Prod.fst := rfl
  rw [hcomp, List.enum_eq_enumFrom, List.enumFrom_map_fst, List.range_eq_range']

/-- In a list with pairwise-distinct keys, `find?` on a key returns the
member carrying it. -/
theorem find?_nodup_key (l : List (Nat × Option (List Int × Nat))) :
    ∀ (n : Nat) (a : Option (List Int × Nat)), (l.map Prod.fst).Nodup →
    (n, a) ∈ l → l.find? (fun p => decide (p.1 = n)) = some (n, a) := by
  induction l with
  | nil => intro n a _ hmem; cases hmem
  | cons p rest ih =>
    intro n a hnodup hmem
    rcases List.mem_cons.mp hmem with hmem | hmem
    · rw [← hmem]
      rw [List.find?_cons_of_pos _ (by simp)]
    · have hne : p.1 ≠ n := by
        intro he
        rw [List.map_cons, List.nodup_cons] at hnodup
        exact hnodup.1 (he ▸ List.mem_map_of_mem Prod.fst hmem)
      rw [List.find?_cons_of_neg _ (by simp [hne])]
      rw [List.map_cons, List.nodup_cons] at hnodup
      exact ih n a hnodup.2 hmem

/-- C10: nodes backed by a feature-matrix row are stored with their
`{features, dim=0}` dict, while an edge endpoint outside the feature
matrix is stored with an empty attribute dict — no `features`, no `dim`. -/
theorem stray_endpoint_untagged (s st : GraphLiftingInst) (d : PData) (g : NXGraph)
    (h : generate_graph_from_data s d = Except.ok (st, g)) :
    (∀ n row, d.x.get? n = some row → g.nodeAttr n = some (some (row, 0))) ∧
    (∀ k i j, (i, j) ∈ d.edge_index → (k = i ∨ k = j) → d.x.length ≤ k →
      g.nodeAttr k = some none) := by
  have hnodup : ((nodesOf d).map Prod.fst).Nodup := by
    rw [nodesOf_map_fst]
    exact List.nodup_range _
  have hg0nodes : (NXGraph.empty.addNodesFrom (nodesOf d)).nodes = nodesOf d := by
    rw [addNodesFrom_nodes_fresh (nodesOf d) NXGraph.empty
      (fun p hp x hx => absurd hx (List.not_mem_nil x)) hnodup]
    exact List.nil_append _
  have hpresent : ∀ n row, d.x.get? n = some row →
      (NXGraph.empty.addNodesFrom (nodesOf d)).nodeAttr n = some (some (row, 0)) := by
    intro n row hrow
    have henum : (n, row) ∈ d.x.enum := by
      rw [List.mem_enum_iff_getElem?]
      rw [List.get?_eq_getElem?] at hrow
      exact hrow
    have hmem : (n, some (row, (0 : Nat))) ∈ nodesOf d := by
      unfold nodesOf
      exact List.mem_map_of_mem _ henum
    unfold NXGraph.nodeAttr
    rw [hg0nodes, find?_nodup_key (nodesOf d) n (some (row, 0)) hnodup hmem]
    rfl
  have habsent : ∀ k, d.x.length ≤ k →
      (NXGraph.empty.addNodesFrom (nodesOf d)).nodeAttr k = none := by
    intro k hk
    rw [nodeAttr_none_iff, hg0nodes]
    intro p hp
    have hpr : p.1 ∈ List.range d.x.length := by
      rw [← nodesOf_map_fst]
      exact List.mem_map_of_mem _ hp
    have := List.mem_range.mp hpr
    omega
  unfold generate_graph_from_data at h
  by_cases hc : (s.preserve_edge_attr && data_has_edge_attr d) = true
  · rw [if_pos hc] at h
    cases hb : buildAttrEdges (attrObjOf d) 0 d.edge_index with
    | error e => rw [hb] at h; cases h
    | ok el =>
      rw [hb, Except.ok.injEq, Prod.mk.injEq] at h
      obtain ⟨hst, hg⟩ := h
      subst hg
      constructor
      · intro n row hrow
        exact nodeAttr_addEdgesFrom_present el _ n (some (row, 0)) (hpresent n row hrow)
      · intro k i j hmem hk hklen
        apply nodeAttr_addEdgesFrom_endpoint el _ k (habsent k hklen)
        have hkeys := buildAttrEdges_keys d.edge_index (attrObjOf d) 0 el hb
        have hmem2 : (i, j) ∈ el.map Prod.fst := by
          rw [hkeys]
          exact hmem
        obtain ⟨e, he, hfe⟩ := List.mem_map.mp hmem2
        refine ⟨e, he, ?_⟩
        rw [hfe]
        exact hk
  · rw [if_neg hc, Except.ok.injEq, Prod.mk.injEq] at h
    obtain ⟨hst, hg⟩ := h
    subst hg
    constructor
    · intro n row hrow
      exact nodeAttr_addEdgesFrom_present _ _ n (some (row, 0)) (hpresent n row hrow)
    · intro k i j hmem hk hklen
      apply nodeAttr_addEdgesFrom_endpoint _ _ k (habsent k hklen)
      exact ⟨((i, j), none), List.mem_map_of_mem _ hmem, hk⟩

/-- The graph the helper builds for the stray-endpoint input. -/
def graphStray : NXGraph := ⟨[(0, some ([7], 0)), (2, none)], [((0, 2), none)]⟩

/-- Witness for `stray_endpoint_untagged`: node 0 carries its row with
`dim=0`, node 2 (an endpoint with no feature row) carries an empty dict. -/
theorem stray_endpoint_untagged_witness :
    graphStray.nodeAttr 0 = some (some ([7], 0)) ∧
    graphStray.nodeAttr 2 = some none := by
  have h := stray_endpoint_untagged plainInst ⟨Strategy.sumLifting, false, some false⟩
    dataStray graphStray (by rfl)
  exact ⟨h.1 0 [7] rfl, h.2 2 0 2 (by decide) (Or.inr rfl) (by decide)⟩
